import Mathlib

/-!
Verification of the reliability-engineering computation scripts.

The repository computes reliability metrics (survival function, failure density,
hazard rate, moments, gamma-percentile lifetimes) for failure-time distributions
and for composite systems (series, parallel, standby-with-switching, fractional
redundancy).  Real arithmetic of the Python scripts is embedded over the
rational numbers; numpy/scipy distribution objects, which live outside the
repository, are abstracted as explicit density/survival functions.
-/

namespace Reliab

/-- Failure density of the Simpson (symmetric triangular) law, from
the function f(t, a, b) in src/lab1/sympson.py; the function
simpson_pdf in src/Laba-1/Simpson.py is the identical formula. -/
def f (t a b : ℚ) : ℚ :=
  if a ≤ t ∧ t ≤ b then 2 / (b - a) - 2 / (b - a) ^ 2 * |a + b - 2 * t| else 0

/-- Composite quadrature simpson_integrate(func, a, b, n=1000) from
src/lab1/sympson.py: an odd subinterval count is bumped to n+1, then
s = func(a) + func(b) + sum over i in range(1, n) of (2 if i even else 4) * func(a+i*h),
and the result is s*h/3. -/
def simpson_integrate (func : ℚ → ℚ) (a b : ℚ) (n : ℕ := 1000) : ℚ :=
  let m := if n % 2 = 0 then n else n + 1
  let h := (b - a) / (m : ℚ)
  (func a + func b +
    ∑ i in Finset.Ico 1 m, (if i % 2 = 0 then (2 : ℚ) else 4) * func (a + (i : ℚ) * h))
    * h / 3

/-- Left-rectangle quadrature integrate(f, start, end, steps=1000) from
src/Laba-1/Simpson.py: area accumulates f(start + i*step) * step for i in range(steps). -/
def integrate (func : ℚ → ℚ) (start stop : ℚ) (steps : ℕ := 1000) : ℚ :=
  let step := (stop - start) / (steps : ℚ)
  ∑ i in Finset.range steps, func (start + (i : ℚ) * step) * step

/-- Moment of order k, m_k(k, a, b) from src/lab1/sympson.py:
simpson_integrate of t^k * f(t, a, b) over [a, b] with n = 1000. -/
def m_k (k : ℕ) (a b : ℚ) : ℚ := simpson_integrate (fun t => t ^ k * f t a b) a b 1000

/-- Mean time to failure T_mid(a, b) = m_1 from src/lab1/sympson.py. -/
def T_mid (a b : ℚ) : ℚ := m_k 1 a b

/-- Variance D(a, b) = m_2 - T_mid^2 from src/lab1/sympson.py. -/
def D (a b : ℚ) : ℚ := m_k 2 a b - T_mid a b ^ 2

/-- Closed-form mean(a, b) = (a+b)/2 from src/Laba-1/Simpson.py. -/
def mean (a b : ℚ) : ℚ := (a + b) / 2

/-- Closed-form variance(a, b) = (b-a)^2/8 from src/Laba-1/Simpson.py. -/
def variance (a b : ℚ) : ℚ := (b - a) ^ 2 / 8

/-- Survival probability P(t, a, b) from src/lab1/sympson.py:
simpson_integrate of the density from max(t, a) to b with n = 1000. -/
def P (t a b : ℚ) : ℚ :=
  simpson_integrate (fun x => f x a b) (if t > a then t else a) b 1000

/-- Hazard rate lambda_t(t, a, b) from src/lab1/sympson.py:
f(t)/P(t) when P(t) > 0, else 0. -/
def lambda_t (t a b : ℚ) : ℚ :=
  if P t a b > 0 then f t a b / P t a b else 0

/-- reliability(dist, t) = dist.sf(t) from src/system.py; the scipy
distribution object is abstracted as its survival function sf. -/
def reliability (sf : ℚ → ℚ) (t : ℚ) : ℚ := sf t

/-- system_reliability(t) from src/system.py (and the identical P(t) of
src/lab1/system.py): product of the three component survival functions. -/
def system_reliability (sf1 sf2 sf3 : ℚ → ℚ) (t : ℚ) : ℚ :=
  reliability sf1 t * reliability sf2 t * reliability sf3 t

/-- system_hazard(t) from src/system.py: np.where(R_sys > 0, f_sys / R_sys, 0),
with the system density and survival abstracted as functions. -/
def system_hazard (fsys Rsys : ℚ → ℚ) (t : ℚ) : ℚ :=
  if Rsys t > 0 then fsys t / Rsys t else 0

/-- The bisection loop of T_gamma from src/lab1/sympson.py, in its general form:
while high - low > tol, the midpoint is tested with survival = 1 - F(mid), and
low (when survival > target) or high is moved to the midpoint.  The embedding
returns the final bracket together with the number of loop iterations.  The
source loop never terminates when tol <= 0 (the width stays positive forever),
so the embedding guards on 0 < tol; every call in the repository uses tol = 1e-4. -/
def bisect (F : ℚ → ℚ) (target tol low high : ℚ) : ℚ × ℚ × ℕ :=
  if h : 0 < tol ∧ tol < high - low then
    if 1 - F ((low + high) / 2) > target then
      ((bisect F target tol ((low + high) / 2) high).1,
       (bisect F target tol ((low + high) / 2) high).2.1,
       (bisect F target tol ((low + high) / 2) high).2.2 + 1)
    else
      ((bisect F target tol low ((low + high) / 2)).1,
       (bisect F target tol low ((low + high) / 2)).2.1,
       (bisect F target tol low ((low + high) / 2)).2.2 + 1)
  else (low, high, 0)
termination_by (⌈(high - low) / tol⌉).toNat
decreasing_by
  all_goals
    have h0 : (0 : ℚ) < tol := h.1
    have h1 : tol < high - low := h.2
    have hx : (1 : ℚ) < (high - low) / tol := (one_lt_div h0).2 h1
    have h2 : (2 : ℤ) ≤ ⌈(high - low) / tol⌉ := by
      have := Int.lt_ceil.mpr (by exact_mod_cast hx : ((1 : ℤ) : ℚ) < (high - low) / tol)
      omega
    have hle : ((high - low) / 2) / tol ≤ ((⌈(high - low) / tol⌉ : ℤ) : ℚ) - 1 := by
      have hc : (high - low) / tol ≤ ((⌈(high - low) / tol⌉ : ℤ) : ℚ) := Int.le_ceil _
      have h2q : (2 : ℚ) ≤ ((⌈(high - low) / tol⌉ : ℤ) : ℚ) := by exact_mod_cast h2
      have : (high - low) / 2 / tol = ((high - low) / tol) / 2 := by ring
      rw [this]
      linarith
    have hlt : ⌈((high - low) / 2) / tol⌉ < ⌈(high - low) / tol⌉ := by
      have : ⌈((high - low) / 2) / tol⌉ ≤ ⌈(high - low) / tol⌉ - 1 := Int.ceil_le.mpr (by push_cast; linarith)
      omega
    have harith : high - (low + high) / 2 = (high - low) / 2 := by ring
    have harith2 : (low + high) / 2 - low = (high - low) / 2 := by ring
    first
      | (rw [harith]; omega)
      | (rw [harith2]; omega)

/-- Gamma-percentile lifetime T_gamma(gamma, a, b, tol=1e-4) from
src/lab1/sympson.py: bisection on [a, b] against the Simpson-quadrature CDF,
returning the midpoint of the final bracket. -/
def T_gamma (ga a b : ℚ) (tol : ℚ := 1 / 10000) : ℚ :=
  let target := ga / 100
  let r := bisect (fun mid => simpson_integrate (fun x => f x a b) a mid 1000) target tol a b
  (r.1 + r.2.1) / 2

/-- parallel_system(P_elem, k_total) from src/lab4/lab4.py:
1 - (1 - P_elem^5)^(k_total+1). -/
def parallel_system (P_elem : ℚ) (k_total : ℕ) : ℚ :=
  1 - (1 - P_elem ^ 5) ^ (k_total + 1)

/-- redundant_with_switches(P_elem, P_switches) from src/lab4/lab4.py:
starting from P_total = P_elem and fail_chain = 1, each stage adds
P_fail * fail_chain * success (with P_fail = 1 - P_elem and
success = P_elem * Pswitch) and multiplies fail_chain by (1 - success). -/
def redundant_with_switches (P_elem : ℚ) (P_switches : List ℚ) : ℚ :=
  (P_switches.foldl
    (fun st Pswitch =>
      let success := P_elem * Pswitch
      (st.1 + (1 - P_elem) * st.2 * success, st.2 * (1 - success)))
    (P_elem, 1)).1

/-- prod(arr) from src/lab4/lab4.py: result starts at 1 and is multiplied
by every element. -/
def prod (arr : List ℚ) : ℚ := arr.foldl (· * ·) 1

/-- parallel_redundancy(P_elem, k_i) from src/lab4/lab4.py:
1 - (1 - P_elem)^(k_i+1). -/
def parallel_redundancy (P_elem : ℚ) (k_i : ℕ) : ℚ :=
  1 - (1 - P_elem) ^ (k_i + 1)

/-- fractional_redundancy(P_elem, m) from src/lab4/lab4.py, with the
Fraction m passed as its numerator and denominator: the binomial sum of
C(n+d, i) * P^(n+d-i) * (1-P)^i for i in range(n+1). -/
def fractional_redundancy (P_elem : ℚ) (num den : ℕ) : ℚ :=
  ∑ i in Finset.range (num + 1),
    (Nat.choose (num + den) i : ℚ) * P_elem ^ (num + den - i) * (1 - P_elem) ^ i

/-- The SERIES survival formula as the spec writes it: the product of the
components' survival values at t (using the repository's own prod helper). -/
def seriesSurvival (comps : List (ℚ → ℚ)) (t : ℚ) : ℚ :=
  prod (comps.map (fun s => reliability s t))

/-- The STANDBY accumulation formula as the spec writes it:
P_total = P_primary + sum over stages k of
P_fail_so_far(k) * P_switch_k * P_unit_k, where P_fail_so_far(k) is the
probability that the primary and every earlier engaged stage has failed,
i.e. (1 - p) times the product of (1 - success_j) for j < k. -/
def standbySpec (p : ℚ) (s : List ℚ) : ℚ :=
  p + ∑ k in Finset.range s.length,
    (1 - p) * (∏ j in Finset.range k, (1 - p * s.getD j 0)) * (s.getD k 0 * p)

/-- Modelled from the spec: the exact survival function of the symmetric
triangular (Simpson) distribution S(a, b).  The repository evaluates this
survival only through scipy (triang(c=0.5, loc=a, scale=b-a).sf in
src/lab1/system.py) or through quadrature, so the closed form is taken from
the spec's description of the distribution: it is the upper-tail integral of
the density f. -/
def triangSf (t a b : ℚ) : ℚ :=
  if t ≤ a then 1
  else if t ≤ (a + b) / 2 then 1 - 2 * (t - a) ^ 2 / (b - a) ^ 2
  else if t ≤ b then 2 * (b - t) ^ 2 / (b - a) ^ 2
  else 0

/-- Integer numerator of the i-th interior Simpson term of m_k(1, 23, 1000):
the term equals this value divided by 244250000. -/
def mom1Num (i : ℕ) : ℤ :=
  (if i % 2 = 0 then (2 : ℤ) else 4) * (23000 + 977 * i) * (500 - |500 - (i : ℤ)|)

/-- Integer numerator of the i-th interior Simpson term of m_k(2, 23, 1000):
the term equals this value divided by 244250000000. -/
def mom2Num (i : ℕ) : ℤ :=
  (if i % 2 = 0 then (2 : ℤ) else 4) * (23000 + 977 * i) ^ 2 * (500 - |500 - (i : ℤ)|)

/-- Integer numerator of the i-th interior Simpson term of P(23, 23, 1000):
the term equals this value divided by 488500. -/
def survNum (i : ℕ) : ℤ :=
  (if i % 2 = 0 then (2 : ℤ) else 4) * (2 * (500 - |500 - (i : ℤ)|))

/-- Integer numerator of the i-th interior Simpson term of
simpson_integrate of the identity on [0, 1] with n = 1000:
the term equals this value divided by 1000. -/
def idNum (i : ℕ) : ℤ := (if i % 2 = 0 then (2 : ℤ) else 4) * i

/-- Peeling the head stage off the spec's standby sum: the head contributes
(1-p)*(x*p) and every later stage picks up the head's factor (1 - p*x) in its
accumulated-failure product. -/
theorem standbySum_cons (p x : ℚ) (xs : List ℚ) :
    (∑ k in Finset.range (xs.length + 1),
      (1 - p) * (∏ j in Finset.range k, (1 - p * (x :: xs).getD j 0)) *
        ((x :: xs).getD k 0 * p)) =
    (1 - p * x) *
      (∑ k in Finset.range xs.length,
        (1 - p) * (∏ j in Finset.range k, (1 - p * xs.getD j 0)) * (xs.getD k 0 * p)) +
      (1 - p) * (x * p) := by
  rw [Finset.sum_range_succ']
  simp only [List.getD_cons_succ, List.getD_cons_zero, Finset.prod_range_zero, mul_one]
  rw [Finset.mul_sum]
  congr 1
  refine Finset.sum_congr rfl ?_
  intro k _
  rw [Finset.prod_range_succ']
  simp only [List.getD_cons_succ, List.getD_cons_zero]
  ring

/-- Peeling the head stage off the spec's failure-chain product. -/
theorem standbyProd_cons (p x : ℚ) (xs : List ℚ) :
    (∏ j in Finset.range (xs.length + 1), (1 - p * (x :: xs).getD j 0)) =
    (∏ j in Finset.range xs.length, (1 - p * xs.getD j 0)) * (1 - p * x) := by
  rw [Finset.prod_range_succ']
  simp only [List.getD_cons_succ, List.getD_cons_zero]

/-- The standby foldl of redundant_with_switches, run from an arbitrary
accumulated total t and failure chain c, computes the closed-form pair:
the total grows by c times the spec's stage sum, and the chain is multiplied
by every stage's (1 - success). -/
theorem standby_foldl (p : ℚ) (s : List ℚ) : ∀ t c : ℚ,
    s.foldl
      (fun st Pswitch =>
        let success := p * Pswitch
        (st.1 + (1 - p) * st.2 * success, st.2 * (1 - success)))
      (t, c) =
    (t + c * ∑ k in Finset.range s.length,
        (1 - p) * (∏ j in Finset.range k, (1 - p * s.getD j 0)) * (s.getD k 0 * p),
     c * ∏ j in Finset.range s.length, (1 - p * s.getD j 0)) := by
  induction s with
  | nil => intro t c; simp
  | cons x xs ih =>
    intro t c
    rw [List.foldl_cons]
    refine (ih (t + (1 - p) * c * (p * x)) (c * (1 - p * x))).trans ?_
    rw [List.length_cons, standbySum_cons, standbyProd_cons, Prod.mk.injEq]
    constructor
    · ring
    · ring

/-- C3: for every elementary reliability p in [0, 1] and every ordered list of
per-stage switch success probabilities, redundant_with_switches returns the
primary reliability plus, for each backup stage, the accumulated-failure mass
times the switch success probability times the unit success probability, the
failure mass being multiplied by (1 - success_k) after each stage — i.e. it
equals the spec's standby accumulation formula. -/
theorem redundant_with_switches_matches_spec (p : ℚ) (h0 : 0 ≤ p) (h1 : p ≤ 1)
    (s : List ℚ) : redundant_with_switches p s = standbySpec p s := by
  unfold redundant_with_switches standbySpec
  rw [standby_foldl]
  simp

/-- Witness for C3 at the repository's own constants: elementary reliability
0.97 and switch chain [0.99, 0.97, 0.95, 0.93]. -/
theorem redundant_with_switches_matches_spec_witness :
    redundant_with_switches (97 / 100) [99 / 100, 97 / 100, 95 / 100, 93 / 100] =
      standbySpec (97 / 100) [99 / 100, 97 / 100, 95 / 100, 93 / 100] :=
  redundant_with_switches_matches_spec (97 / 100) (by norm_num) (by norm_num) _

/-- C10: redundant_with_switches applied to an empty switch list returns
exactly the bare primary reliability p. -/
theorem redundant_with_switches_empty (p : ℚ) : redundant_with_switches p [] = p := rfl

/-- C1: for every triple of component survival functions and every time t, the
SERIES composite survival system_reliability equals exactly the product of the
component survivals, i.e. the spec's series formula over the component list. -/
theorem system_reliability_eq_seriesSurvival (sf1 sf2 sf3 : ℚ → ℚ) (t : ℚ) :
    system_reliability sf1 sf2 sf3 t = seriesSurvival [sf1, sf2, sf3] t := by
  unfold system_reliability seriesSurvival prod reliability
  simp only [List.map_cons, List.map_nil, List.foldl_cons, List.foldl_nil]
  ring

/-- C5: for elementary reliability p in (0, 1), the PARALLEL redundancy
reliability 1 - (1-p)^(n+1) is strictly increasing in the number n of redundant
units and equals p at n = 0; parallel_system is the same composition applied to
the five-element series reliability p^5. -/
theorem parallel_redundancy_strictMono_and_base (p : ℚ) (h0 : 0 < p) (h1 : p < 1) :
    StrictMono (fun n : ℕ => parallel_redundancy p n) ∧
      parallel_redundancy p 0 = p ∧
      ∀ k : ℕ, parallel_system p k = parallel_redundancy (p ^ 5) k := by
  refine ⟨strictMono_nat_of_lt_succ ?_, by unfold parallel_redundancy; ring,
    fun k => rfl⟩
  intro n
  unfold parallel_redundancy
  have hq0 : 0 < 1 - p := by linarith
  have hq1 : 1 - p < 1 := by linarith
  have := pow_lt_pow_right_of_lt_one₀ hq0 hq1 (by omega : n + 1 < n + 1 + 1)
  show (1 : ℚ) - (1 - p) ^ (n + 1) < 1 - (1 - p) ^ (n + 1 + 1)
  linarith

/-- Witness for C5 at p = 1/2. -/
theorem parallel_redundancy_strictMono_and_base_witness :
    StrictMono (fun n : ℕ => parallel_redundancy (1 / 2) n) ∧
      parallel_redundancy (1 / 2) 0 = 1 / 2 ∧
      ∀ k : ℕ, parallel_system (1 / 2) k = parallel_redundancy ((1 / 2) ^ 5) k :=
  parallel_redundancy_strictMono_and_base (1 / 2) (by norm_num) (by norm_num)

/-- C6: fractional redundancy at multiplicity m = 0/1 (numerator 0,
denominator 1) reduces to the bare single-unit reliability p. -/
theorem fractional_redundancy_zero (p : ℚ) : fractional_redundancy p 0 1 = p := by
  unfold fractional_redundancy
  norm_num [Finset.sum_range_one]

/-- One loop step when the guard holds and the approximate survival at the
midpoint exceeds the target: low moves to the midpoint. -/
theorem bisect_step_pos (F : ℚ → ℚ) (target tol low high : ℚ)
    (h : 0 < tol ∧ tol < high - low) (hgt : 1 - F ((low + high) / 2) > target) :
    bisect F target tol low high =
      ((bisect F target tol ((low + high) / 2) high).1,
       (bisect F target tol ((low + high) / 2) high).2.1,
       (bisect F target tol ((low + high) / 2) high).2.2 + 1) := by
  rw [bisect.eq_def, dif_pos h, if_pos hgt]

/-- One loop step when the guard holds and the approximate survival at the
midpoint does not exceed the target: high moves to the midpoint. -/
theorem bisect_step_neg (F : ℚ → ℚ) (target tol low high : ℚ)
    (h : 0 < tol ∧ tol < high - low) (hgt : ¬(1 - F ((low + high) / 2) > target)) :
    bisect F target tol low high =
      ((bisect F target tol low ((low + high) / 2)).1,
       (bisect F target tol low ((low + high) / 2)).2.1,
       (bisect F target tol low ((low + high) / 2)).2.2 + 1) := by
  rw [bisect.eq_def, dif_pos h, if_neg hgt]

/-- The loop exits as soon as the bracket width is at most tol. -/
theorem bisect_stop (F : ℚ → ℚ) (target tol low high : ℚ)
    (h : ¬(0 < tol ∧ tol < high - low)) :
    bisect F target tol low high = (low, high, 0) := by
  rw [bisect.eq_def, dif_neg h]

/-- The final bracket has width at most tol. -/
theorem bisect_width (F : ℚ → ℚ) (target tol : ℚ) (htol : 0 < tol) (low high : ℚ) :
    (bisect F target tol low high).2.1 - (bisect F target tol low high).1 ≤ tol := by
  induction low, high using bisect.induct F target tol with
  | case1 low high h hgt ih =>
      rw [bisect_step_pos F target tol low high h hgt]
      exact ih
  | case2 low high h hgt ih =>
      rw [bisect_step_neg F target tol low high h hgt]
      exact ih
  | case3 low high h =>
      rw [bisect_stop F target tol low high h]
      push_neg at h
      simpa using h htol

/-- The endpoints move monotonically: the final bracket is nested in the
initial one, with the final low at most the final high. -/
theorem bisect_bracket (F : ℚ → ℚ) (target tol : ℚ) (low high : ℚ) :
    low ≤ high →
      low ≤ (bisect F target tol low high).1 ∧
      (bisect F target tol low high).1 ≤ (bisect F target tol low high).2.1 ∧
      (bisect F target tol low high).2.1 ≤ high := by
  induction low, high using bisect.induct F target tol with
  | case1 low high h hgt ih =>
      intro hle
      have h2 : (low + high) / 2 ≤ high := by linarith
      have h1 : low ≤ (low + high) / 2 := by linarith
      have hr := ih h2
      rw [bisect_step_pos F target tol low high h hgt]
      exact ⟨h1.trans hr.1, hr.2.1, hr.2.2⟩
  | case2 low high h hgt ih =>
      intro hle
      have h2 : (low + high) / 2 ≤ high := by linarith
      have h1 : low ≤ (low + high) / 2 := by linarith
      have hr := ih h1
      rw [bisect_step_neg F target tol low high h hgt]
      exact ⟨hr.1, hr.2.1, hr.2.2.trans h2⟩
  | case3 low high h =>
      intro hle
      rw [bisect_stop F target tol low high h]
      exact ⟨le_refl _, hle, le_refl _⟩

/-- An iteration-count upper bound: when the initial width is at most
2^n * tol, the loop runs at most n iterations. -/
theorem bisect_count_le (F : ℚ → ℚ) (target tol : ℚ) :
    ∀ (n : ℕ) (low high : ℚ), high - low ≤ 2 ^ n * tol →
      (bisect F target tol low high).2.2 ≤ n := by
  intro n
  induction n with
  | zero =>
      intro low high hw
      rw [pow_zero, one_mul] at hw
      have hstop : ¬(0 < tol ∧ tol < high - low) := by
        rintro ⟨h1, h2⟩
        linarith
      rw [bisect_stop F target tol low high hstop]
  | succ n ih =>
      intro low high hw
      rw [pow_succ] at hw
      by_cases hg : 0 < tol ∧ tol < high - low
      · by_cases hgt : 1 - F ((low + high) / 2) > target
        · rw [bisect_step_pos F target tol low high hg hgt]
          have hw2 : high - (low + high) / 2 ≤ 2 ^ n * tol := by linarith
          exact Nat.add_le_add_right (ih ((low + high) / 2) high hw2) 1
        · rw [bisect_step_neg F target tol low high hg hgt]
          have hw2 : (low + high) / 2 - low ≤ 2 ^ n * tol := by linarith
          exact Nat.add_le_add_right (ih low ((low + high) / 2) hw2) 1
      · rw [bisect_stop F target tol low high hg]
        exact Nat.zero_le _

/-- The exact iteration count: a bracket of width exactly 2^n * tol is
halved exactly n times before the width reaches tol, whatever F does. -/
theorem bisect_count_eq (F : ℚ → ℚ) (target tol : ℚ) (htol : 0 < tol) :
    ∀ (n : ℕ) (low high : ℚ), high - low = 2 ^ n * tol →
      (bisect F target tol low high).2.2 = n := by
  intro n
  induction n with
  | zero =>
      intro low high hw
      rw [pow_zero, one_mul] at hw
      have hstop : ¬(0 < tol ∧ tol < high - low) := by
        rintro ⟨h1, h2⟩
        rw [hw] at h2
        linarith
      rw [bisect_stop F target tol low high hstop]
  | succ n ih =>
      intro low high hw
      rw [pow_succ] at hw
      have hpow : (0 : ℚ) < 2 ^ n := by positivity
      have hg : 0 < tol ∧ tol < high - low := by
        refine ⟨htol, ?_⟩
        rw [hw]
        have h1 : (1 : ℚ) ≤ 2 ^ n := by
          have h2 : (2 : ℚ) ^ 0 ≤ 2 ^ n := pow_le_pow_right₀ (by norm_num) (Nat.zero_le n)
          simpa using h2
        nlinarith
      by_cases hgt : 1 - F ((low + high) / 2) > target
      · rw [bisect_step_pos F target tol low high hg hgt]
        have hw2 : high - (low + high) / 2 = 2 ^ n * tol := by linarith
        rw [ih ((low + high) / 2) high hw2]
      · rw [bisect_step_neg F target tol low high hg hgt]
        have hw2 : (low + high) / 2 - low = 2 ^ n * tol := by linarith
        rw [ih low ((low + high) / 2) hw2]

/-- When the midpoint test never favours moving low (the approximate survival
never exceeds the target on the bracket), low is returned unchanged. -/
theorem bisect_low_fixed (F : ℚ → ℚ) (target tol : ℚ) (low high : ℚ) :
    low ≤ high →
    (∀ m, low ≤ m → m ≤ high → ¬(1 - F m > target)) →
    (bisect F target tol low high).1 = low := by
  induction low, high using bisect.induct F target tol with
  | case1 low high h hgt ih =>
      intro hle hall
      exact absurd hgt (hall ((low + high) / 2) (by linarith) (by linarith))
  | case2 low high h hgt ih =>
      intro hle hall
      have h1 : low ≤ (low + high) / 2 := by linarith [h.1, h.2]
      have h2 : (low + high) / 2 ≤ high := by linarith [h.1, h.2]
      rw [bisect_step_neg F target tol low high h hgt]
      exact ih h1 (fun m hm1 hm2 => hall m hm1 (hm2.trans h2))
  | case3 low high h =>
      intro _ _
      rw [bisect_stop F target tol low high h]

/-- The Simpson density is non-negative everywhere (for a non-degenerate
support a < b). -/
theorem f_nonneg (t a b : ℚ) (hab : a < b) : 0 ≤ f t a b := by
  unfold f
  split
  · rename_i h
    have hba : 0 < b - a := by linarith
    have habs : |a + b - 2 * t| ≤ b - a := by
      rw [abs_le]
      constructor <;> linarith [h.1, h.2]
    have key : 2 / (b - a) - 2 / (b - a) ^ 2 * |a + b - 2 * t| =
        2 * ((b - a) - |a + b - 2 * t|) / (b - a) ^ 2 := by
      field_simp
      ring
    rw [key]
    apply div_nonneg
    · nlinarith
    · positivity
  · exact le_refl 0

/-- Simpson quadrature of a pointwise non-negative integrand over an ordered
interval is non-negative. -/
theorem simpson_integrate_nonneg (g : ℚ → ℚ) (a b : ℚ) (n : ℕ)
    (hg : ∀ x, 0 ≤ g x) (hab : a ≤ b) : 0 ≤ simpson_integrate g a b n := by
  simp only [simpson_integrate]
  have hh : (0 : ℚ) ≤ (b - a) / ((if n % 2 = 0 then n else n + 1 : ℕ) : ℚ) := by
    apply div_nonneg (by linarith)
    positivity
  apply div_nonneg _ (by norm_num)
  apply mul_nonneg _ hh
  have hsum : (0 : ℚ) ≤ ∑ i in Finset.Ico 1 (if n % 2 = 0 then n else n + 1),
      (if i % 2 = 0 then (2 : ℚ) else 4) *
        g (a + (i : ℚ) * ((b - a) / ((if n % 2 = 0 then n else n + 1 : ℕ) : ℚ))) := by
    apply Finset.sum_nonneg
    intro i _
    apply mul_nonneg _ (hg _)
    split <;> norm_num
  have := hg a
  have := hg b
  linarith

/-- Shared bound for the gamma = 100 percentile query on S(23, 1000): every
midpoint test compares 1 minus a non-negative quadrature value against the
target 1, so low never moves, and the returned time lies within tol/2 = 1/20000
of the support lower bound 23. -/
theorem T_gamma_100_bounds :
    23 ≤ T_gamma 100 23 1000 (1 / 10000) ∧
      T_gamma 100 23 1000 (1 / 10000) ≤ 23 + 1 / 20000 := by
  have hF : ∀ m : ℚ, (23 : ℚ) ≤ m → m ≤ 1000 →
      ¬(1 - simpson_integrate (fun x => f x 23 1000) 23 m 1000 > 100 / 100) := by
    intro m hm1 _
    have h0 : 0 ≤ simpson_integrate (fun x => f x 23 1000) 23 m 1000 :=
      simpson_integrate_nonneg _ _ _ _ (fun x => f_nonneg x 23 1000 (by norm_num)) hm1
    intro hgt
    norm_num at hgt
    linarith
  have hlow : (bisect (fun mid => simpson_integrate (fun x => f x 23 1000) 23 mid 1000)
      (100 / 100) (1 / 10000) 23 1000).1 = 23 :=
    bisect_low_fixed _ _ _ _ _ (by norm_num) hF
  have hwidth := bisect_width (fun mid => simpson_integrate (fun x => f x 23 1000) 23 mid 1000)
      (100 / 100) (1 / 10000) (by norm_num) 23 1000
  have hbr := bisect_bracket (fun mid => simpson_integrate (fun x => f x 23 1000) 23 mid 1000)
      (100 / 100) (1 / 10000) 23 1000 (by norm_num)
  have ht : T_gamma 100 23 1000 (1 / 10000) =
      ((bisect (fun mid => simpson_integrate (fun x => f x 23 1000) 23 mid 1000)
          (100 / 100) (1 / 10000) 23 1000).1 +
        (bisect (fun mid => simpson_integrate (fun x => f x 23 1000) 23 mid 1000)
          (100 / 100) (1 / 10000) 23 1000).2.1) / 2 := rfl
  rw [ht, hlow]
  rw [hlow] at hwidth hbr
  constructor
  · linarith [hbr.2.1]
  · linarith [hwidth]

/-- C2 counterexample: at gamma = 100 on the Simpson distribution S(23, 1000),
the time returned by T_gamma does not solve 1 - survival(t) = gamma/100.  The
loop drives t to the lower support bound (where the cumulative failure
probability is near 0), because the code solves survival(t) = gamma/100, not
1 - survival(t) = gamma/100. -/
theorem T_gamma_100_not_failure_quantile :
    ¬(1 - triangSf (T_gamma 100 23 1000 (1 / 10000)) 23 1000 = 100 / 100) := by
  obtain ⟨hl, hu⟩ := T_gamma_100_bounds
  intro heq
  unfold triangSf at heq
  split_ifs at heq with h1 h2 h3
  · norm_num at heq
  · nlinarith [heq, hl, hu]
  · exact h2 (by linarith)
  · exact h2 (by linarith)

/-- C2 amended, at the concrete query the counterexample uses: T_gamma(100)
returns a time within tol/2 of the lower support bound a = 23, which is
exactly the time where the survival function equals gamma/100 = 1 — i.e. the
code computes the time with survival(t) = gamma/100 (descending in gamma),
not the time with cumulative failure 1 - survival(t) = gamma/100. -/
theorem T_gamma_100_solves_survival_quantile :
    23 ≤ T_gamma 100 23 1000 (1 / 10000) ∧
      T_gamma 100 23 1000 (1 / 10000) ≤ 23 + 1 / 20000 ∧
      triangSf 23 23 1000 = 100 / 100 := by
  obtain ⟨hl, hu⟩ := T_gamma_100_bounds
  refine ⟨hl, hu, ?_⟩
  unfold triangSf
  norm_num

/-- C9 amended: for every bracket [a, b] with a < b, positive tolerance, and
width at most 2^200 * tol, the bisection loop terminates within 200 iterations,
the final bracket is nested in [a, b] with monotonically moved endpoints and
width at most tol, and whenever the loop runs, one step replaces the bracket by
one of its two halves (the width exactly halves each iteration). -/
theorem bisect_terminates_monotone (F : ℚ → ℚ) (target a b tol : ℚ)
    (hab : a < b) (htol : 0 < tol) (hbound : b - a ≤ 2 ^ 200 * tol) :
    (bisect F target tol a b).2.2 ≤ 200 ∧
    a ≤ (bisect F target tol a b).1 ∧
    (bisect F target tol a b).1 ≤ (bisect F target tol a b).2.1 ∧
    (bisect F target tol a b).2.1 ≤ b ∧
    (bisect F target tol a b).2.1 - (bisect F target tol a b).1 ≤ tol ∧
    (tol < b - a →
      (bisect F target tol a b =
          ((bisect F target tol ((a + b) / 2) b).1,
           (bisect F target tol ((a + b) / 2) b).2.1,
           (bisect F target tol ((a + b) / 2) b).2.2 + 1) ∧
        b - (a + b) / 2 = (b - a) / 2) ∨
      (bisect F target tol a b =
          ((bisect F target tol a ((a + b) / 2)).1,
           (bisect F target tol a ((a + b) / 2)).2.1,
           (bisect F target tol a ((a + b) / 2)).2.2 + 1) ∧
        (a + b) / 2 - a = (b - a) / 2)) := by
  have hbr := bisect_bracket F target tol a b (le_of_lt hab)
  refine ⟨bisect_count_le F target tol 200 a b hbound, hbr.1, hbr.2.1, hbr.2.2,
    bisect_width F target tol htol a b, ?_⟩
  intro hrun
  by_cases hgt : 1 - F ((a + b) / 2) > target
  · exact Or.inl ⟨bisect_step_pos F target tol a b ⟨htol, hrun⟩ hgt, by ring⟩
  · exact Or.inr ⟨bisect_step_neg F target tol a b ⟨htol, hrun⟩ hgt, by ring⟩

/-- Witness for the amended C9 at the repository's own percentile query on
S(23, 1000) with tol = 1e-4 (width 977 needs only 24 halvings, well under 200). -/
theorem bisect_terminates_monotone_witness :
    (bisect (fun mid => simpson_integrate (fun x => f x 23 1000) 23 mid 1000)
        (50 / 100) (1 / 10000) 23 1000).2.2 ≤ 200 ∧
    23 ≤ (bisect (fun mid => simpson_integrate (fun x => f x 23 1000) 23 mid 1000)
        (50 / 100) (1 / 10000) 23 1000).1 ∧
    (bisect (fun mid => simpson_integrate (fun x => f x 23 1000) 23 mid 1000)
        (50 / 100) (1 / 10000) 23 1000).1 ≤
      (bisect (fun mid => simpson_integrate (fun x => f x 23 1000) 23 mid 1000)
        (50 / 100) (1 / 10000) 23 1000).2.1 ∧
    (bisect (fun mid => simpson_integrate (fun x => f x 23 1000) 23 mid 1000)
        (50 / 100) (1 / 10000) 23 1000).2.1 ≤ 1000 ∧
    (bisect (fun mid => simpson_integrate (fun x => f x 23 1000) 23 mid 1000)
        (50 / 100) (1 / 10000) 23 1000).2.1 -
      (bisect (fun mid => simpson_integrate (fun x => f x 23 1000) 23 mid 1000)
        (50 / 100) (1 / 10000) 23 1000).1 ≤ 1 / 10000 ∧
    ((1 : ℚ) / 10000 < 1000 - 23 →
      (bisect (fun mid => simpson_integrate (fun x => f x 23 1000) 23 mid 1000)
          (50 / 100) (1 / 10000) 23 1000 =
          ((bisect (fun mid => simpson_integrate (fun x => f x 23 1000) 23 mid 1000)
              (50 / 100) (1 / 10000) ((23 + 1000) / 2) 1000).1,
           (bisect (fun mid => simpson_integrate (fun x => f x 23 1000) 23 mid 1000)
              (50 / 100) (1 / 10000) ((23 + 1000) / 2) 1000).2.1,
           (bisect (fun mid => simpson_integrate (fun x => f x 23 1000) 23 mid 1000)
              (50 / 100) (1 / 10000) ((23 + 1000) / 2) 1000).2.2 + 1) ∧
        (1000 : ℚ) - (23 + 1000) / 2 = (1000 - 23) / 2) ∨
      (bisect (fun mid => simpson_integrate (fun x => f x 23 1000) 23 mid 1000)
          (50 / 100) (1 / 10000) 23 1000 =
          ((bisect (fun mid => simpson_integrate (fun x => f x 23 1000) 23 mid 1000)
              (50 / 100) (1 / 10000) 23 ((23 + 1000) / 2)).1,
           (bisect (fun mid => simpson_integrate (fun x => f x 23 1000) 23 mid 1000)
              (50 / 100) (1 / 10000) 23 ((23 + 1000) / 2)).2.1,
           (bisect (fun mid => simpson_integrate (fun x => f x 23 1000) 23 mid 1000)
              (50 / 100) (1 / 10000) 23 ((23 + 1000) / 2)).2.2 + 1) ∧
        ((23 : ℚ) + 1000) / 2 - 23 = (1000 - 23) / 2)) :=
  bisect_terminates_monotone
    (fun mid => simpson_integrate (fun x => f x 23 1000) 23 mid 1000)
    (50 / 100) 23 1000 (1 / 10000) (by norm_num) (by norm_num) (by norm_num)

/-- C9 counterexample: on the bracket [0, 2^201/10000] with tolerance 1e-4,
the same percentile bisection loop runs exactly 201 iterations — 200 do not
suffice for every bracket, since the width only halves once per iteration. -/
theorem bisect_201_iterations :
    200 < (bisect (fun mid => simpson_integrate (fun x => f x 0 (2 ^ 201 / 10000)) 0 mid 1000)
        (50 / 100) (1 / 10000) 0 ((2 : ℚ) ^ 201 / 10000)).2.2 := by
  have h := bisect_count_eq
    (fun mid => simpson_integrate (fun x => f x 0 (2 ^ 201 / 10000)) 0 mid 1000)
    (50 / 100) (1 / 10000) (by norm_num) 201 0 ((2 : ℚ) ^ 201 / 10000) (by ring)
  rw [h]
  norm_num

/-- Unfolding of simpson_integrate at the repository's fixed n = 1000. -/
theorem simpson_1000 (g : ℚ → ℚ) (a b : ℚ) :
    simpson_integrate g a b 1000 =
      (g a + g b +
        ∑ i in Finset.Ico (1 : ℕ) 1000,
          (if i % 2 = 0 then (2 : ℚ) else 4) * g (a + (i : ℚ) * ((b - a) / 1000)))
        * ((b - a) / 1000) / 3 := by
  simp only [simpson_integrate]
  norm_num [-ite_mul, -mul_ite]

/-- Unfolding of the moment quadrature m_k at n = 1000. -/
theorem m_k_1000 (k : ℕ) (a b : ℚ) :
    m_k k a b =
      (a ^ k * f a a b + b ^ k * f b a b +
        ∑ i in Finset.Ico (1 : ℕ) 1000,
          (if i % 2 = 0 then (2 : ℚ) else 4) *
            ((a + (i : ℚ) * ((b - a) / 1000)) ^ k * f (a + (i : ℚ) * ((b - a) / 1000)) a b))
        * ((b - a) / 1000) / 3 := by
  unfold m_k
  simp only [simpson_integrate]
  norm_num [-ite_mul, -mul_ite]

/-- The density of S(23, 1000) at the i-th quadrature node, as an exact
integer-numerator fraction. -/
theorem f_grid (i : ℕ) (hi : i ≤ 1000) :
    f (23 + (i : ℚ) * ((1000 - 23) / 1000)) 23 1000 =
      ((2 * (500 - |500 - (i : ℤ)|) : ℤ) : ℚ) / 488500 := by
  have hiq : (0 : ℚ) ≤ (i : ℚ) := Nat.cast_nonneg i
  have hiq2 : (i : ℚ) ≤ 1000 := by exact_mod_cast hi
  unfold f
  rw [if_pos]
  swap
  · constructor
    · nlinarith
    · nlinarith
  have habs : (23 : ℚ) + 1000 - 2 * (23 + (i : ℚ) * ((1000 - 23) / 1000)) =
      (977 / 500) * (500 - (i : ℚ)) := by ring
  rw [habs, abs_mul, abs_of_pos (show (0 : ℚ) < 977 / 500 by norm_num)]
  push_cast
  ring

/-- The density of S(23, 1000) vanishes at the left support endpoint. -/
theorem f_left : f 23 23 1000 = 0 := by
  unfold f
  rw [if_pos (by norm_num)]
  rw [show (23 : ℚ) + 1000 - 2 * 23 = 977 by norm_num,
    abs_of_pos (show (0 : ℚ) < 977 by norm_num)]
  norm_num

/-- The density of S(23, 1000) vanishes at the right support endpoint. -/
theorem f_right : f 1000 23 1000 = 0 := by
  unfold f
  rw [if_pos (by norm_num)]
  rw [show (23 : ℚ) + 1000 - 2 * 1000 = -977 by norm_num,
    abs_of_neg (show (-977 : ℚ) < 0 by norm_num)]
  norm_num

/-- The i-th interior term of the first-moment quadrature, exactly. -/
theorem mom1_term (i : ℕ) (hi : i ≤ 1000) :
    (if i % 2 = 0 then (2 : ℚ) else 4) *
      ((23 + (i : ℚ) * ((1000 - 23) / 1000)) ^ 1 *
        f (23 + (i : ℚ) * ((1000 - 23) / 1000)) 23 1000) =
      ((mom1Num i : ℤ) : ℚ) / 244250000 := by
  rw [f_grid i hi]
  unfold mom1Num
  split_ifs with h <;> (push_cast; ring)

/-- The i-th interior term of the second-moment quadrature, exactly. -/
theorem mom2_term (i : ℕ) (hi : i ≤ 1000) :
    (if i % 2 = 0 then (2 : ℚ) else 4) *
      ((23 + (i : ℚ) * ((1000 - 23) / 1000)) ^ 2 *
        f (23 + (i : ℚ) * ((1000 - 23) / 1000)) 23 1000) =
      ((mom2Num i : ℤ) : ℚ) / 244250000000 := by
  rw [f_grid i hi]
  unfold mom2Num
  split_ifs with h <;> (push_cast; ring)

/-- The i-th interior term of the survival quadrature P(23, 23, 1000), exactly. -/
theorem surv_term (i : ℕ) (hi : i ≤ 1000) :
    (if i % 2 = 0 then (2 : ℚ) else 4) * f (23 + (i : ℚ) * ((1000 - 23) / 1000)) 23 1000 =
      ((survNum i : ℤ) : ℚ) / 488500 := by
  rw [f_grid i hi]
  unfold survNum
  split_ifs with h <;> (push_cast; ring)

/-- The i-th interior term of the Simpson quadrature of the identity on [0,1]. -/
theorem id_term (i : ℕ) :
    (if i % 2 = 0 then (2 : ℚ) else 4) * ((0 : ℚ) + (i : ℚ) * ((1 - 0) / 1000)) =
      ((idNum i : ℤ) : ℚ) / 1000 := by
  unfold idNum
  split_ifs with h <;> (push_cast; ring)

set_option maxRecDepth 40000 in
/-- Kernel evaluation (in four chunks) of the first-moment numerator sum. -/
theorem mom1Num_sum : ∑ i in Finset.Ico 1 1000, mom1Num i = 383625000000 := by
  have h1 : ∑ i in Finset.Ico 1 251, mom1Num i = 17488687500 := by decide
  have h2 : ∑ i in Finset.Ico 251 501, mom1Num i = 113517062500 := by decide
  have h3 : ∑ i in Finset.Ico 501 751, mom1Num i = 174323812500 := by decide
  have h4 : ∑ i in Finset.Ico 751 1000, mom1Num i = 78295437500 := by decide
  rw [← Finset.sum_Ico_consecutive (fun i => mom1Num i)
        (by norm_num : (1 : ℕ) ≤ 251) (by norm_num : (251 : ℕ) ≤ 1000),
      ← Finset.sum_Ico_consecutive (fun i => mom1Num i)
        (by norm_num : (251 : ℕ) ≤ 501) (by norm_num : (501 : ℕ) ≤ 1000),
      ← Finset.sum_Ico_consecutive (fun i => mom1Num i)
        (by norm_num : (501 : ℕ) ≤ 751) (by norm_num : (751 : ℕ) ≤ 1000),
      h1, h2, h3, h4]
  norm_num

set_option maxRecDepth 40000 in
/-- Kernel evaluation (in four chunks) of the second-moment numerator sum. -/
theorem mom2Num_sum : ∑ i in Finset.Ico 1 1000, mom2Num i = 226053218750000000 := by
  have h1 : ∑ i in Finset.Ico 1 251, mom2Num i = 3566139820312500 := by decide
  have h2 : ∑ i in Finset.Ico 251 501, mom2Num i = 47124348179687500 := by decide
  have h3 : ∑ i in Finset.Ico 501 751, mom2Num i = 109490298585937500 := by decide
  have h4 : ∑ i in Finset.Ico 751 1000, mom2Num i = 65872432164062500 := by decide
  rw [← Finset.sum_Ico_consecutive (fun i => mom2Num i)
        (by norm_num : (1 : ℕ) ≤ 251) (by norm_num : (251 : ℕ) ≤ 1000),
      ← Finset.sum_Ico_consecutive (fun i => mom2Num i)
        (by norm_num : (251 : ℕ) ≤ 501) (by norm_num : (501 : ℕ) ≤ 1000),
      ← Finset.sum_Ico_consecutive (fun i => mom2Num i)
        (by norm_num : (501 : ℕ) ≤ 751) (by norm_num : (751 : ℕ) ≤ 1000),
      h1, h2, h3, h4]
  norm_num

set_option maxRecDepth 40000 in
/-- Kernel evaluation (in four chunks) of the survival numerator sum. -/
theorem survNum_sum : ∑ i in Finset.Ico 1 1000, survNum i = 1500000 := by
  have h1 : ∑ i in Finset.Ico 1 251, survNum i = 188000 := by decide
  have h2 : ∑ i in Finset.Ico 251 501, survNum i = 563000 := by decide
  have h3 : ∑ i in Finset.Ico 501 751, survNum i = 562000 := by decide
  have h4 : ∑ i in Finset.Ico 751 1000, survNum i = 187000 := by decide
  rw [← Finset.sum_Ico_consecutive (fun i => survNum i)
        (by norm_num : (1 : ℕ) ≤ 251) (by norm_num : (251 : ℕ) ≤ 1000),
      ← Finset.sum_Ico_consecutive (fun i => survNum i)
        (by norm_num : (251 : ℕ) ≤ 501) (by norm_num : (501 : ℕ) ≤ 1000),
      ← Finset.sum_Ico_consecutive (fun i => survNum i)
        (by norm_num : (501 : ℕ) ≤ 751) (by norm_num : (751 : ℕ) ≤ 1000),
      h1, h2, h3, h4]
  norm_num

set_option maxRecDepth 40000 in
/-- Kernel evaluation (in four chunks) of the identity numerator sum. -/
theorem idNum_sum : ∑ i in Finset.Ico 1 1000, idNum i = 1499000 := by
  have h1 : ∑ i in Finset.Ico 1 251, idNum i = 94000 := by decide
  have h2 : ∑ i in Finset.Ico 251 501, idNum i = 281500 := by decide
  have h3 : ∑ i in Finset.Ico 501 751, idNum i = 469000 := by decide
  have h4 : ∑ i in Finset.Ico 751 1000, idNum i = 654500 := by decide
  rw [← Finset.sum_Ico_consecutive (fun i => idNum i)
        (by norm_num : (1 : ℕ) ≤ 251) (by norm_num : (251 : ℕ) ≤ 1000),
      ← Finset.sum_Ico_consecutive (fun i => idNum i)
        (by norm_num : (251 : ℕ) ≤ 501) (by norm_num : (501 : ℕ) ≤ 1000),
      ← Finset.sum_Ico_consecutive (fun i => idNum i)
        (by norm_num : (501 : ℕ) ≤ 751) (by norm_num : (751 : ℕ) ≤ 1000),
      h1, h2, h3, h4]
  norm_num

/-- The first-moment quadrature on S(23, 1000) is exactly the closed-form mean:
the integrand is piecewise quadratic with its kink on a panel boundary, and
Simpson panels are exact on cubics. -/
theorem m_1_exact : m_k 1 23 1000 = 1023 / 2 := by
  rw [m_k_1000]
  rw [Finset.sum_congr rfl fun i hi => mom1_term i (le_of_lt (Finset.mem_Ico.mp hi).2)]
  rw [← Finset.sum_div, ← Int.cast_sum, mom1Num_sum, f_left, f_right]
  norm_num

/-- The second-moment quadrature on S(23, 1000), exactly. -/
theorem m_2_exact : m_k 2 23 1000 = 7233703 / 24 := by
  rw [m_k_1000]
  rw [Finset.sum_congr rfl fun i hi => mom2_term i (le_of_lt (Finset.mem_Ico.mp hi).2)]
  rw [← Finset.sum_div, ← Int.cast_sum, mom2Num_sum, f_left, f_right]
  norm_num

/-- The quadrature mean path agrees exactly with (23+1000)/2. -/
theorem T_mid_exact : T_mid 23 1000 = 1023 / 2 := by
  unfold T_mid
  exact m_1_exact

/-- The quadrature variance path on S(23, 1000): exactly (1000-23)^2/24, the
true variance of the symmetric triangular distribution. -/
theorem D_exact : D 23 1000 = 954529 / 24 := by
  unfold D
  rw [m_2_exact, T_mid_exact]
  norm_num

/-- The quadrature survival at the lower support bound is exactly 1. -/
theorem P_23_exact : P 23 23 1000 = 1 := by
  unfold P
  rw [if_neg (by norm_num : ¬((23 : ℚ) > 23)), simpson_1000]
  rw [Finset.sum_congr rfl fun i hi => surv_term i (le_of_lt (Finset.mem_Ico.mp hi).2)]
  rw [← Finset.sum_div, ← Int.cast_sum, survNum_sum, f_left, f_right]
  norm_num

/-- The quadrature survival at the upper support bound is exactly 0
(the integration interval collapses). -/
theorem P_1000_exact : P 1000 23 1000 = 0 := by
  unfold P
  rw [if_pos (by norm_num : (1000 : ℚ) > 23)]
  simp only [simpson_integrate]
  norm_num

/-- Simpson quadrature of the identity on [0, 1] with n = 1000 gives exactly
the true integral 1/2. -/
theorem simpson_id : simpson_integrate (fun x => x) 0 1 1000 = 1 / 2 := by
  rw [simpson_1000]
  rw [Finset.sum_congr rfl fun i hi => id_term i]
  rw [← Finset.sum_div, ← Int.cast_sum, idNum_sum]
  norm_num

/-- The i-th left-rectangle term for the identity on [0, 1], exactly. -/
theorem id_rect_term (i : ℕ) :
    ((0 : ℚ) + (i : ℚ) * ((1 - 0) / ((1000 : ℕ) : ℚ))) * ((1 - 0) / ((1000 : ℕ) : ℚ)) =
      (i : ℚ) * (1 / 1000000) := by
  push_cast
  ring

/-- The left-rectangle quadrature of the identity on [0, 1] with 1000 steps:
999/2000, not the true integral 1/2. -/
theorem integrate_id : integrate (fun x => x) 0 1 1000 = 999 / 2000 := by
  have hgauss : (∑ i in Finset.range 1000, (i : ℚ)) = 499500 := by
    have h2 := Finset.sum_range_id_mul_two 1000
    have h3 : (∑ i in Finset.range 1000, i) = 499500 := by omega
    rw [← Nat.cast_sum, h3]
    norm_num
  simp only [integrate]
  rw [Finset.sum_congr rfl fun i hi => id_rect_term i]
  rw [← Finset.sum_mul, hgauss]
  norm_num

/-- The interior weighted sum of an even-count Simpson quadrature regroups
exactly into (1, 4, 1)-weighted panels. -/
theorem simpson_panels (g : ℚ → ℚ) (c h : ℚ) :
    ∀ m : ℕ, 1 ≤ m →
      g c + g (c + 2 * (m : ℚ) * h) +
        ∑ i in Finset.Ico (1 : ℕ) (2 * m),
          (if i % 2 = 0 then (2 : ℚ) else 4) * g (c + (i : ℚ) * h) =
      ∑ j in Finset.range m,
        (g (c + 2 * (j : ℚ) * h) + 4 * g (c + (2 * (j : ℚ) + 1) * h) +
          g (c + (2 * (j : ℚ) + 2) * h)) := by
  intro m
  induction m with
  | zero => intro hm; exact absurd hm (by norm_num)
  | succ m ih =>
    intro _
    by_cases hm : 1 ≤ m
    · have e1 : 2 * (m + 1) = (2 * m + 1) + 1 := by ring
      rw [e1, Finset.sum_Ico_succ_top (by omega), Finset.sum_Ico_succ_top (by omega),
        Finset.sum_range_succ, ← ih hm]
      rw [if_pos (by omega : (2 * m) % 2 = 0), if_neg (by omega : ¬((2 * m + 1) % 2 = 0))]
      have a1 : ((2 * m : ℕ) : ℚ) = 2 * (m : ℚ) := by push_cast; ring
      have a2 : ((2 * m + 1 : ℕ) : ℚ) = 2 * (m : ℚ) + 1 := by push_cast; ring
      have a4 : ((m + 1 : ℕ) : ℚ) = (m : ℚ) + 1 := by push_cast; ring
      rw [a1, a2, a4]
      have a3 : c + 2 * ((m : ℚ) + 1) * h = c + (2 * (m : ℚ) + 2) * h := by ring
      rw [a3]
      ring
    · have hm0 : m = 0 := by omega
      subst hm0
      rw [show 2 * (0 + 1) = 1 + 1 from rfl, Finset.sum_Ico_succ_top (by omega)]
      rw [show Finset.Ico (1 : ℕ) 1 = ∅ from rfl, Finset.sum_empty, Finset.sum_range_succ,
        Finset.sum_range_zero]
      rw [if_neg (by omega : ¬((1 : ℕ) % 2 = 0))]
      push_cast
      ring_nf

/-- simpson_integrate with an even subinterval count 2m is exactly the
composite Simpson rule: the sum over m panels of (g0 + 4 g1 + g2) * h / 3. -/
theorem simpson_2m (g : ℚ → ℚ) (a b : ℚ) (m : ℕ) (hm : 1 ≤ m) :
    simpson_integrate g a b (2 * m) =
      (∑ j in Finset.range m,
        (g (a + 2 * (j : ℚ) * ((b - a) / (2 * (m : ℚ)))) +
          4 * g (a + (2 * (j : ℚ) + 1) * ((b - a) / (2 * (m : ℚ)))) +
          g (a + (2 * (j : ℚ) + 2) * ((b - a) / (2 * (m : ℚ)))))) *
        ((b - a) / (2 * (m : ℚ))) / 3 := by
  have hm0 : (m : ℚ) ≠ 0 := Nat.cast_ne_zero.mpr (by omega)
  simp only [simpson_integrate]
  rw [if_pos (by omega : (2 * m) % 2 = 0)]
  have hcast : ((2 * m : ℕ) : ℚ) = 2 * (m : ℚ) := by push_cast; ring
  rw [hcast]
  have hb : g b = g (a + 2 * (m : ℚ) * ((b - a) / (2 * (m : ℚ)))) := by
    congr 1
    field_simp
  rw [hb, ← simpson_panels g a ((b - a) / (2 * (m : ℚ))) m hm]

/-- Composite Simpson quadrature integrates constants exactly. -/
theorem simpson_const (c : ℚ) (a b : ℚ) (m : ℕ) (hm : 1 ≤ m) :
    simpson_integrate (fun _ => c) a b (2 * m) = c * (b - a) := by
  have hm0 : (m : ℚ) ≠ 0 := Nat.cast_ne_zero.mpr (by omega)
  rw [simpson_2m (fun _ => c) a b m hm]
  rw [Finset.sum_congr rfl fun j hj => (show c + 4 * c + c = 6 * c by ring)]
  rw [Finset.sum_const, Finset.card_range, nsmul_eq_mul]
  field_simp
  ring

/-- An odd subinterval count is replaced by the next larger even count. -/
theorem simpson_odd (g : ℚ → ℚ) (a b : ℚ) (n : ℕ) (hodd : n % 2 = 1) :
    simpson_integrate g a b n = simpson_integrate g a b (n + 1) := by
  simp only [simpson_integrate]
  rw [if_neg (by omega : ¬(n % 2 = 0)), if_pos (by omega : (n + 1) % 2 = 0)]

/-- C7: the hazard rate equals density/survival whenever survival is positive
and equals 0 (by policy, not an error) whenever survival is 0 — both for the
np.where guard of system_hazard in src/system.py and for the conditional
expression of lambda_t in src/lab1/sympson.py. -/
theorem hazard_rate_policy (fsys Rsys : ℚ → ℚ) (t a b : ℚ) :
    (0 < Rsys t → system_hazard fsys Rsys t = fsys t / Rsys t) ∧
    (Rsys t = 0 → system_hazard fsys Rsys t = 0) ∧
    (0 < P t a b → lambda_t t a b = f t a b / P t a b) ∧
    (P t a b = 0 → lambda_t t a b = 0) := by
  refine ⟨fun h => ?_, fun h => ?_, fun h => ?_, fun h => ?_⟩
  · unfold system_hazard
    rw [if_pos h]
  · unfold system_hazard
    rw [if_neg (by rw [h]; exact lt_irrefl 0)]
  · unfold lambda_t
    rw [if_pos h]
  · unfold lambda_t
    rw [if_neg (by rw [h]; exact lt_irrefl 0)]

/-- Witness for C7: both hazard branches realized concretely — the positive
branch abstractly and at P(23, 23, 1000) = 1, and the zero branch abstractly
and at P(1000, 23, 1000) = 0. -/
theorem hazard_rate_policy_witness :
    system_hazard (fun _ => 3) (fun _ => 2) 0 = 3 / 2 ∧
    system_hazard (fun _ => 3) (fun _ => 0) 0 = 0 ∧
    lambda_t 23 23 1000 = f 23 23 1000 / P 23 23 1000 ∧
    lambda_t 1000 23 1000 = 0 :=
  ⟨(hazard_rate_policy (fun _ => 3) (fun _ => 2) 0 0 0).1 (by norm_num),
   (hazard_rate_policy (fun _ => 3) (fun _ => 0) 0 0 0).2.1 rfl,
   (hazard_rate_policy (fun _ => 3) (fun _ => 2) 23 23 1000).2.2.1
     (by rw [P_23_exact]; norm_num),
   (hazard_rate_policy (fun _ => 3) (fun _ => 2) 1000 23 1000).2.2.2 P_1000_exact⟩

/-- C4 counterexample: for the symmetric distribution on [23, 1000], the
code's closed-form variance (1000-23)^2/8 = 119316.125 is not the claimed
119310.125, and the quadrature moment path D = m_2 - T_mid^2 does not agree
with the closed form either (it yields (1000-23)^2/24 = 39772.04...). -/
theorem simpson_variance_claim_false :
    ¬(variance 23 1000 = 119310125 / 1000) ∧ ¬(D 23 1000 = variance 23 1000) := by
  constructor
  · norm_num [variance]
  · rw [D_exact]
    norm_num [variance]

/-- C4 amended: on S(23, 1000) the closed-form mean is 511.5 and the
quadrature mean path agrees exactly; the closed-form variance of
src/Laba-1/Simpson.py is (1000-23)^2/8 = 119316.125, while the quadrature
moment path of src/lab1/sympson.py yields exactly (1000-23)^2/24 = 954529/24
(the true triangular variance), so the two variance paths disagree. -/
theorem simpson_moments_exact :
    mean 23 1000 = 1023 / 2 ∧ T_mid 23 1000 = 1023 / 2 ∧
    variance 23 1000 = 954529 / 8 ∧ D 23 1000 = 954529 / 24 ∧
    ¬(variance 23 1000 = D 23 1000) := by
  refine ⟨by norm_num [mean], T_mid_exact, by norm_num [variance], D_exact, ?_⟩
  rw [D_exact]
  norm_num [variance]

/-- C8 amended: simpson_integrate defaults to 1000 subintervals, replaces an
odd count n by the even n+1, and with an even count 2m is exactly the
composite Simpson rule (panel sum of (g0 + 4 g1 + g2) * h / 3), which in
particular integrates constants exactly. -/
theorem simpson_rule_structure (g : ℚ → ℚ) (a b c : ℚ) (n m : ℕ)
    (hodd : n % 2 = 1) (hm : 1 ≤ m) :
    simpson_integrate g a b = simpson_integrate g a b 1000 ∧
    simpson_integrate g a b n = simpson_integrate g a b (n + 1) ∧
    simpson_integrate g a b (2 * m) =
      (∑ j in Finset.range m,
        (g (a + 2 * (j : ℚ) * ((b - a) / (2 * (m : ℚ)))) +
          4 * g (a + (2 * (j : ℚ) + 1) * ((b - a) / (2 * (m : ℚ)))) +
          g (a + (2 * (j : ℚ) + 2) * ((b - a) / (2 * (m : ℚ)))))) *
        ((b - a) / (2 * (m : ℚ))) / 3 ∧
    simpson_integrate (fun _ => c) a b (2 * m) = c * (b - a) :=
  ⟨rfl, simpson_odd g a b n hodd, simpson_2m g a b m hm, simpson_const c a b m hm⟩

/-- Witness for the amended C8 at g = id, [a, b] = [0, 1], c = 5, n = 3, m = 2. -/
theorem simpson_rule_structure_witness :
    simpson_integrate (fun x => x) 0 1 = simpson_integrate (fun x => x) 0 1 1000 ∧
    simpson_integrate (fun x => x) 0 1 3 = simpson_integrate (fun x => x) 0 1 (3 + 1) ∧
    simpson_integrate (fun x => x) 0 1 (2 * 2) =
      (∑ j in Finset.range 2,
        ((fun x => x) ((0 : ℚ) + 2 * (j : ℚ) * ((1 - 0) / (2 * ((2 : ℕ) : ℚ)))) +
          4 * (fun x => x) ((0 : ℚ) + (2 * (j : ℚ) + 1) * ((1 - 0) / (2 * ((2 : ℕ) : ℚ)))) +
          (fun x => x) ((0 : ℚ) + (2 * (j : ℚ) + 2) * ((1 - 0) / (2 * ((2 : ℕ) : ℚ)))))) *
        ((1 - 0) / (2 * ((2 : ℕ) : ℚ))) / 3 ∧
    simpson_integrate (fun _ => (5 : ℚ)) 0 1 (2 * 2) = 5 * (1 - 0) :=
  simpson_rule_structure (fun x => x) 0 1 5 3 2 (by norm_num) (by norm_num)

/-- C8 counterexample: the integrate routine of src/Laba-1/Simpson.py is a
left-rectangle rule, not composite Simpson: on the identity over [0, 1] with
its default 1000 steps it returns 999/2000, while the Simpson value (and the
exact integral) is 1/2. -/
theorem integrate_left_riemann_not_simpson :
    integrate (fun x => x) 0 1 1000 = 999 / 2000 ∧
    simpson_integrate (fun x => x) 0 1 1000 = 1 / 2 ∧
    (999 : ℚ) / 2000 ≠ 1 / 2 :=
  ⟨integrate_id, simpson_id, by norm_num⟩

end Reliab
